import Mathlib

/-
  Verification development for a bunnymark benchmark (ggez, Rust).

  The source is src/src/main.rs. Machine floats (f32) are modelled as exact
  rationals; the random generator (ThreadRng) is modelled as explicit streams
  of unit-interval draws, booleans and raw naturals, consumed in program
  order. rand gen_range with an empty range panics in Rust, which the model
  renders as Option.none.
-/

namespace Bunnymark

/-- const INITIAL_BUNNIES: usize = 100 -/
def INITIAL_BUNNIES : Nat := 100

/-- const WIDTH: u16 = 1280 -/
def WIDTH : Nat := 1280

/-- const HEIGHT: u16 = 720 -/
def HEIGHT : Nat := 720

/-- const GRAVITY: f32 = 0.5 -/
def GRAVITY : ℚ := 1/2

/-- A 2D point or vector with rational coordinates, modelling
na::Point2<f32> and na::Vector2<f32>. -/
structure Vec2 where
  x : ℚ
  y : ℚ
deriving Repr, DecidableEq

/-- The random source, modelling rand::rngs::ThreadRng: a stream of
unit-interval float draws for gen::<f32>(), a stream of booleans for
gen::<bool>(), and a stream of raw naturals backing integer gen_range. -/
structure Rng where
  floats : List ℚ
  bools : List Bool
  nats : List Nat
deriving Repr, DecidableEq

/-- rng.gen::<f32>(): consume one unit-interval draw. -/
def Rng.genFloat (r : Rng) : ℚ × Rng :=
  (r.floats.headD 0, { r with floats := r.floats.tail })

/-- rng.gen::<bool>(): consume one boolean draw. -/
def Rng.genBool (r : Rng) : Bool × Rng :=
  (r.bools.headD false, { r with bools := r.bools.tail })

/-- rng.gen_range(0, n) on integers: uniform index below n; rand panics on
an empty range, modelled as none. -/
def Rng.genRangeNat (r : Rng) (n : Nat) : Option (Nat × Rng) :=
  if n = 0 then none
  else some (r.nats.headD 0 % n, { r with nats := r.nats.tail })

/-- rng.gen_range(0.0, w) on floats: uniform in [0, w), obtained by scaling
a unit draw; rand panics when the range is empty (w ≤ 0), modelled as none. -/
def Rng.genRangeFloat (r : Rng) (w : ℚ) : Option (ℚ × Rng) :=
  if w ≤ 0 then none
  else some (r.floats.headD 0 * w, { r with floats := r.floats.tail })

/-- Well-formedness of the float stream: every pending gen::<f32>() draw
lies in the unit interval [0, 1), as the Rust generator guarantees. -/
def Rng.unitFloats (r : Rng) : Prop :=
  ∀ q ∈ r.floats, 0 ≤ q ∧ q < 1

/-- struct Bunny: position and velocity. -/
structure Bunny where
  position : Vec2
  velocity : Vec2
deriving Repr, DecidableEq

/-- Bunny::new(x, y, rng): spawn at (x, y) with x_vel = gen * 5.0 and
y_vel = gen * 5.0 - 2.5, consuming two float draws. -/
def Bunny.new (x y : ℚ) (rng : Rng) : Bunny × Rng :=
  let p1 := rng.genFloat
  let x_vel := p1.1 * 5
  let p2 := p1.2.genFloat
  let y_vel := p2.1 * 5 - 5/2
  ({ position := ⟨x, y⟩, velocity := ⟨x_vel, y_vel⟩ }, p2.2)

/-- struct GameState: the core simulation state. The texture handle and
sprite batch are external graphics resources; only the entity list, the
bounds, the input flags, the debounce counter and the draw-mode flag carry
simulation content. -/
structure GameState where
  rng : Rng
  bunnies : List Bunny
  max_x : ℚ
  max_y : ℚ
  delete_held : Bool
  add_held : Bool
  ctrl_held : Bool
  click_timer : Int
  batched_drawing : Bool
deriving Repr, DecidableEq

/-- The spawn loop of GameState::new: push n bunnies spawned at (x, y). -/
def spawnLoop : Nat → ℚ → ℚ → List Bunny → Rng → List Bunny × Rng
  | 0, _, _, bunnies, rng => (bunnies, rng)
  | n+1, x, y, bunnies, rng =>
    let p := Bunny.new x y rng
    spawnLoop n x y (bunnies ++ [p.1]) p.2

/-- GameState::new: spawn INITIAL_BUNNIES bunnies at (0, 0), derive the
bounds from the window and sprite sizes, and initialise all flags.
tw and th are the texture pixel dimensions. -/
def GameState.new (tw th : Nat) (rng : Rng) : GameState :=
  let max_x : ℚ := ((WIDTH - tw : Nat) : ℚ)
  let max_y : ℚ := ((HEIGHT - th : Nat) : ℚ)
  let p := spawnLoop INITIAL_BUNNIES 0 0 [] rng
  { rng := p.2
    bunnies := p.1
    max_x := max_x
    max_y := max_y
    delete_held := false
    add_held := false
    ctrl_held := false
    click_timer := 0
    batched_drawing := true }

/-- The ctrl+add burst loop: n times, draw a random x in [0, w) and push a
bunny spawned at (x, 0). -/
def addBurst : Nat → ℚ → List Bunny → Rng → Option (List Bunny × Rng)
  | 0, _, bunnies, rng => some (bunnies, rng)
  | n+1, w, bunnies, rng =>
    match rng.genRangeFloat w with
    | none => none
    | some (wx, rng1) =>
      let p := Bunny.new wx 0 rng1
      addBurst n w (bunnies ++ [p.1]) p.2

/-- The add phase of one tick (lines 106-118): if add is held, spawn a
burst of INITIAL_BUNNIES bunnies across the top when ctrl is held, else one
bunny at the cursor. -/
def addPhase (windowW : ℚ) (cursor : Vec2) (addHeld ctrlHeld : Bool)
    (bunnies : List Bunny) (rng : Rng) : Option (List Bunny × Rng) :=
  if addHeld then
    if ctrlHeld then
      addBurst INITIAL_BUNNIES windowW bunnies rng
    else
      let p := Bunny.new cursor.x cursor.y rng
      some (bunnies ++ [p.1], p.2)
  else some (bunnies, rng)

/-- The ctrl+delete loop: n times, remove the bunny at a random index of
the current (shrinking) list. -/
def removeLoop : Nat → List Bunny → Rng → Option (List Bunny × Rng)
  | 0, bunnies, rng => some (bunnies, rng)
  | n+1, bunnies, rng =>
    match rng.genRangeNat bunnies.length with
    | none => none
    | some (i, rng1) => removeLoop n (bunnies.eraseIdx i) rng1

/-- The delete phase of one tick (lines 120-138): if delete is held, remove
min(INITIAL_BUNNIES, count) bunnies when ctrl is held, else one bunny at a
random index provided the list is nonempty. -/
def deletePhase (deleteHeld ctrlHeld : Bool) (bunnies : List Bunny)
    (rng : Rng) : Option (List Bunny × Rng) :=
  let bunnyCount := bunnies.length
  if deleteHeld then
    if ctrlHeld then
      let count := if bunnyCount > INITIAL_BUNNIES then INITIAL_BUNNIES
                   else bunnyCount
      removeLoop count bunnies rng
    else
      if bunnyCount > 0 then
        match rng.genRangeNat bunnyCount with
        | none => none
        | some (i, rng1) => some (bunnies.eraseIdx i, rng1)
      else some (bunnies, rng)
  else some (bunnies, rng)

/-- Euler move and gravity (lines 141-142): position += velocity, then
velocity.y += GRAVITY. -/
def stepMove (b : Bunny) : Bunny :=
  { position := ⟨b.position.x + b.velocity.x, b.position.y + b.velocity.y⟩
    velocity := ⟨b.velocity.x, b.velocity.y + GRAVITY⟩ }

/-- Horizontal bounce (lines 144-150): reflect velocity.x and clamp
position.x at either wall; the two checks are mutually exclusive. -/
def stepHorizontal (maxX : ℚ) (b : Bunny) : Bunny :=
  if b.position.x > maxX then
    { position := ⟨maxX, b.position.y⟩
      velocity := ⟨b.velocity.x * (-1), b.velocity.y⟩ }
  else if b.position.x < 0 then
    { position := ⟨0, b.position.y⟩
      velocity := ⟨b.velocity.x * (-1), b.velocity.y⟩ }
  else b

/-- Vertical bounce (lines 152-162): at the floor, damp velocity.y by -0.8
and clamp, then with probability one half subtract an extra impulse
3.0 + gen * 4.0; at the ceiling, zero velocity.y and clamp. -/
def stepVertical (maxY : ℚ) (b : Bunny) (rng : Rng) : Bunny × Rng :=
  if b.position.y > maxY then
    let vy := b.velocity.y * (-(4/5))
    let pc := rng.genBool
    if pc.1 then
      let pu := pc.2.genFloat
      ({ position := ⟨b.position.x, maxY⟩
         velocity := ⟨b.velocity.x, vy - (3 + pu.1 * 4)⟩ }, pu.2)
    else
      ({ position := ⟨b.position.x, maxY⟩
         velocity := ⟨b.velocity.x, vy⟩ }, pc.2)
  else if b.position.y < 0 then
    ({ position := ⟨b.position.x, 0⟩
       velocity := ⟨b.velocity.x, 0⟩ }, rng)
  else (b, rng)

/-- One physics integration step for one bunny (lines 140-163). -/
def integrate (maxX maxY : ℚ) (b : Bunny) (rng : Rng) : Bunny × Rng :=
  stepVertical maxY (stepHorizontal maxX (stepMove b)) rng

/-- The integration loop over the whole entity list, threading the rng. -/
def integrateAll (maxX maxY : ℚ) : List Bunny → Rng → List Bunny × Rng
  | [], rng => ([], rng)
  | b :: bs, rng =>
    let p := integrate maxX maxY b rng
    let q := integrateAll maxX maxY bs p.2
    (p.1 :: q.1, q.2)

/-- One simulation tick (the body of the while loop in update, lines
101-164): decrement the debounce counter if positive, run the add phase,
the delete phase, then integrate every bunny. windowW is the window width
queried for the burst; cursor is the pointer position. -/
def tick (windowW : ℚ) (cursor : Vec2) (s : GameState) : Option GameState :=
  let ct := if s.click_timer > 0 then s.click_timer - 1 else s.click_timer
  match addPhase windowW cursor s.add_held s.ctrl_held s.bunnies s.rng with
  | none => none
  | some (bs1, rng1) =>
    match deletePhase s.delete_held s.ctrl_held bs1 rng1 with
    | none => none
    | some (bs2, rng2) =>
      let p := integrateAll s.max_x s.max_y bs2 rng2
      some { s with click_timer := ct, bunnies := p.1, rng := p.2 }

/-- The key codes the handler inspects; Other stands for any other key. -/
inductive KeyCode where
  | Space
  | Back
  | Escape
  | LControl
  | RControl
  | Other
deriving DecidableEq, Repr

/-- key_down_event (lines 198-218): Space toggles batched drawing, Back
clears the bunnies, Escape requests quit (no state change in the core),
either Control sets ctrl_held. -/
def keyDownEvent (keycode : KeyCode) (s : GameState) : GameState :=
  let s1 := if keycode = KeyCode.Space
            then { s with batched_drawing := !s.batched_drawing } else s
  let s2 := if keycode = KeyCode.Back then { s1 with bunnies := [] } else s1
  if keycode = KeyCode.LControl ∨ keycode = KeyCode.RControl
  then { s2 with ctrl_held := true } else s2

/-- key_up_event (lines 220-224): releasing either Control clears
ctrl_held. -/
def keyUpEvent (keycode : KeyCode) (s : GameState) : GameState :=
  if keycode = KeyCode.LControl ∨ keycode = KeyCode.RControl
  then { s with ctrl_held := false } else s

/-- The mouse buttons the handler inspects. -/
inductive MouseButton where
  | Left
  | Right
  | Other
deriving DecidableEq, Repr

/-- mouse_button_down_event (lines 226-239): Left sets add_held, Right sets
delete_held. -/
def mouseButtonDownEvent (button : MouseButton) (s : GameState) : GameState :=
  let s1 := if button = MouseButton.Left then { s with add_held := true }
            else s
  if button = MouseButton.Right then { s1 with delete_held := true } else s1

/-- mouse_button_up_event (lines 242-255): Right clears delete_held, Left
clears add_held. -/
def mouseButtonUpEvent (button : MouseButton) (s : GameState) : GameState :=
  let s1 := if button = MouseButton.Right then { s with delete_held := false }
            else s
  if button = MouseButton.Left then { s1 with add_held := false } else s1

/-- One drawn sprite instance: a texture handle and a destination point. -/
structure DrawInstance where
  texture : Nat
  dest : Vec2
deriving Repr, DecidableEq

/-- The batched draw path (lines 172-177): the batch holds one instance per
bunny at its position, and the whole batch is drawn at the origin, so each
instance lands at origin + position. -/
def batchedDraw (texture : Nat) (bunnies : List Bunny) : List DrawInstance :=
  bunnies.map (fun b => ⟨texture, ⟨0 + b.position.x, 0 + b.position.y⟩⟩)

/-- The naive draw path (lines 178-182): one draw call per bunny, the
texture drawn at the bunny position. -/
def naiveDraw (texture : Nat) (bunnies : List Bunny) : List DrawInstance :=
  bunnies.map (fun b => ⟨texture, b.position⟩)

/-- The states reachable from initialization through the event handlers
and the tick driver. -/
inductive Reachable : GameState → Prop where
  | init (tw th : Nat) (rng : Rng) : Reachable (GameState.new tw th rng)
  | step (w : ℚ) (c : Vec2) (s s' : GameState) :
      Reachable s → tick w c s = some s' → Reachable s'
  | keyDown (k : KeyCode) (s : GameState) :
      Reachable s → Reachable (keyDownEvent k s)
  | keyUp (k : KeyCode) (s : GameState) :
      Reachable s → Reachable (keyUpEvent k s)
  | mouseDown (b : MouseButton) (s : GameState) :
      Reachable s → Reachable (mouseButtonDownEvent b s)
  | mouseUp (b : MouseButton) (s : GameState) :
      Reachable s → Reachable (mouseButtonUpEvent b s)

/-! ## Helper lemmas -/

/-- The spawn loop adds exactly n bunnies to the accumulator. -/
lemma spawnLoop_length (n : Nat) (x y : ℚ) :
    ∀ (acc : List Bunny) (rng : Rng),
      (spawnLoop n x y acc rng).1.length = acc.length + n := by
  induction n with
  | zero => intro acc rng; simp [spawnLoop]
  | succ n ih =>
    intro acc rng
    simp only [spawnLoop]
    rw [ih]
    simp
    omega

/-- Every bunny produced by the spawn loop is from the accumulator or sits
at the spawn point. -/
lemma spawnLoop_mem (n : Nat) (x y : ℚ) :
    ∀ (acc : List Bunny) (rng : Rng),
      ∀ b ∈ (spawnLoop n x y acc rng).1, b ∈ acc ∨ b.position = ⟨x, y⟩ := by
  induction n with
  | zero => intro acc rng b hb; left; simpa [spawnLoop] using hb
  | succ n ih =>
    intro acc rng b hb
    simp only [spawnLoop] at hb
    rcases ih (acc ++ [(Bunny.new x y rng).1]) (Bunny.new x y rng).2 b hb
      with h | h
    · rcases List.mem_append.mp h with h | h
      · exact Or.inl h
      · right
        simp only [List.mem_singleton] at h
        subst h
        rfl
    · exact Or.inr h

/-- key_down_event never touches the debounce counter. -/
lemma keyDownEvent_click_timer (k : KeyCode) (s : GameState) :
    (keyDownEvent k s).click_timer = s.click_timer := by
  cases k <;> rfl

/-- key_up_event never touches the debounce counter. -/
lemma keyUpEvent_click_timer (k : KeyCode) (s : GameState) :
    (keyUpEvent k s).click_timer = s.click_timer := by
  cases k <;> rfl

/-- mouse_button_down_event never touches the debounce counter. -/
lemma mouseButtonDownEvent_click_timer (b : MouseButton) (s : GameState) :
    (mouseButtonDownEvent b s).click_timer = s.click_timer := by
  cases b <;> rfl

/-- mouse_button_up_event never touches the debounce counter. -/
lemma mouseButtonUpEvent_click_timer (b : MouseButton) (s : GameState) :
    (mouseButtonUpEvent b s).click_timer = s.click_timer := by
  cases b <;> rfl

/-- A successful tick sets the debounce counter to its decremented value. -/
lemma tick_click_timer (w : ℚ) (c : Vec2) (s s' : GameState)
    (h : tick w c s = some s') :
    s'.click_timer =
      if s.click_timer > 0 then s.click_timer - 1 else s.click_timer := by
  unfold tick at h
  rcases h1 : addPhase w c s.add_held s.ctrl_held s.bunnies s.rng
    with _ | ⟨bs1, rng1⟩
  · simp only [h1] at h
    exact Option.noConfusion h
  · simp only [h1] at h
    rcases h2 : deletePhase s.delete_held s.ctrl_held bs1 rng1
      with _ | ⟨bs2, rng2⟩
    · simp only [h2] at h
      exact Option.noConfusion h
    · simp only [h2, Option.some.injEq] at h
      subst h
      rfl

/-- A successful tick produces exactly the bunnies of the integration loop
run over the post-controller population against the original bounds. -/
lemma tick_bunnies (w : ℚ) (c : Vec2) (s s' : GameState)
    (h : tick w c s = some s') :
    ∃ bs rng, s'.bunnies = (integrateAll s.max_x s.max_y bs rng).1 := by
  unfold tick at h
  rcases h1 : addPhase w c s.add_held s.ctrl_held s.bunnies s.rng
    with _ | ⟨bs1, rng1⟩
  · simp only [h1] at h
    exact Option.noConfusion h
  · simp only [h1] at h
    rcases h2 : deletePhase s.delete_held s.ctrl_held bs1 rng1
      with _ | ⟨bs2, rng2⟩
    · simp only [h2] at h
      exact Option.noConfusion h
    · simp only [h2, Option.some.injEq] at h
      subst h
      exact ⟨bs2, rng2, rfl⟩

/-- After the horizontal bounce, position.x lies in [0, maxX] provided
maxX is nonnegative. -/
lemma stepHorizontal_x_bounds (maxX : ℚ) (hx : 0 ≤ maxX) (b : Bunny) :
    0 ≤ (stepHorizontal maxX b).position.x ∧
      (stepHorizontal maxX b).position.x ≤ maxX := by
  unfold stepHorizontal
  split_ifs with h1 h2
  · exact ⟨hx, le_refl maxX⟩
  · exact ⟨le_refl 0, hx⟩
  · exact ⟨by linarith, by linarith⟩

/-- The vertical bounce leaves position.x unchanged. -/
lemma stepVertical_x (maxY : ℚ) (b : Bunny) (rng : Rng) :
    (stepVertical maxY b rng).1.position.x = b.position.x := by
  simp only [stepVertical]
  split_ifs <;> rfl

/-- After the vertical bounce, position.y lies in [0, maxY] provided maxY
is nonnegative. -/
lemma stepVertical_y_bounds (maxY : ℚ) (hy : 0 ≤ maxY) (b : Bunny)
    (rng : Rng) :
    0 ≤ (stepVertical maxY b rng).1.position.y ∧
      (stepVertical maxY b rng).1.position.y ≤ maxY := by
  simp only [stepVertical]
  split_ifs with h1 h2 h3
  · exact ⟨hy, le_refl maxY⟩
  · exact ⟨hy, le_refl maxY⟩
  · exact ⟨le_refl 0, hy⟩
  · exact ⟨by linarith, by linarith⟩

/-- One integration step keeps a bunny inside the box [0, maxX] × [0, maxY]
when the bounds are nonnegative. -/
lemma integrate_bounds (maxX maxY : ℚ) (hx : 0 ≤ maxX) (hy : 0 ≤ maxY)
    (b : Bunny) (rng : Rng) :
    0 ≤ (integrate maxX maxY b rng).1.position.x ∧
    (integrate maxX maxY b rng).1.position.x ≤ maxX ∧
    0 ≤ (integrate maxX maxY b rng).1.position.y ∧
    (integrate maxX maxY b rng).1.position.y ≤ maxY := by
  unfold integrate
  have hxs := stepHorizontal_x_bounds maxX hx (stepMove b)
  have hys := stepVertical_y_bounds maxY hy (stepHorizontal maxX (stepMove b)) rng
  have hxx := stepVertical_x maxY (stepHorizontal maxX (stepMove b)) rng
  exact ⟨hxx ▸ hxs.1, hxx ▸ hxs.2, hys.1, hys.2⟩

/-- Every bunny left by the integration loop lies inside the box, when the
bounds are nonnegative. -/
lemma integrateAll_bounds (maxX maxY : ℚ) (hx : 0 ≤ maxX) (hy : 0 ≤ maxY) :
    ∀ (bs : List Bunny) (rng : Rng),
      ∀ b ∈ (integrateAll maxX maxY bs rng).1,
        0 ≤ b.position.x ∧ b.position.x ≤ maxX ∧
        0 ≤ b.position.y ∧ b.position.y ≤ maxY := by
  intro bs
  induction bs with
  | nil => intro rng b hb; simp [integrateAll] at hb
  | cons hd tl ih =>
    intro rng b hb
    simp only [integrateAll] at hb
    rcases List.mem_cons.mp hb with h | h
    · subst h; exact integrate_bounds maxX maxY hx hy hd rng
    · exact ih _ b h

/-- The integration loop preserves the number of bunnies. -/
lemma integrateAll_length (maxX maxY : ℚ) :
    ∀ (bs : List Bunny) (rng : Rng),
      (integrateAll maxX maxY bs rng).1.length = bs.length := by
  intro bs
  induction bs with
  | nil => intro rng; rfl
  | cons hd tl ih =>
    intro rng
    simp only [integrateAll, List.length_cons]
    rw [ih]

/-- The head draw of a well-formed float stream lies in [0, 1); an
exhausted stream defaults to 0, which also lies there. -/
lemma headD_unit (r : Rng) (h : r.unitFloats) :
    0 ≤ r.floats.headD 0 ∧ r.floats.headD 0 < 1 := by
  cases hf : r.floats with
  | nil => norm_num
  | cons a l =>
    simp only [List.headD_cons]
    exact h a (hf ▸ List.mem_cons_self a l)

/-- Consuming a float draw preserves well-formedness of the stream. -/
lemma unitFloats_tail (r : Rng) (h : r.unitFloats) :
    Rng.unitFloats { r with floats := r.floats.tail } := by
  intro q hq
  exact h q (List.mem_of_mem_tail hq)

/-- Bunny::new consumes two float draws and preserves well-formedness. -/
lemma bunnyNew_unitFloats (x y : ℚ) (rng : Rng) (h : rng.unitFloats) :
    ((Bunny.new x y rng).2).unitFloats := by
  intro q hq
  exact h q (List.mem_of_mem_tail (List.mem_of_mem_tail hq))

/-- The burst loop succeeds for a positive width and a well-formed stream,
adds exactly n bunnies, and every added bunny sits at y = 0 with x in
[0, w). -/
lemma addBurst_spec (n : Nat) (w : ℚ) (hw : 0 < w) :
    ∀ (acc : List Bunny) (rng : Rng), rng.unitFloats →
      ∃ p, addBurst n w acc rng = some p ∧
        p.1.length = acc.length + n ∧
        ∀ b ∈ p.1, b ∈ acc ∨
          (b.position.y = 0 ∧ 0 ≤ b.position.x ∧ b.position.x < w) := by
  induction n with
  | zero =>
    intro acc rng _
    exact ⟨(acc, rng), rfl, by simp, fun b hb => Or.inl hb⟩
  | succ n ih =>
    intro acc rng h
    have hgen : rng.genRangeFloat w =
        some (rng.floats.headD 0 * w, { rng with floats := rng.floats.tail }) := by
      unfold Rng.genRangeFloat
      rw [if_neg (not_le.mpr hw)]
    have htail : Rng.unitFloats { rng with floats := rng.floats.tail } :=
      unitFloats_tail rng h
    have hnew : ((Bunny.new (rng.floats.headD 0 * w) 0
        { rng with floats := rng.floats.tail }).2).unitFloats :=
      bunnyNew_unitFloats _ _ _ htail
    obtain ⟨p, hp, hlen, hmem⟩ := ih
      (acc ++ [(Bunny.new (rng.floats.headD 0 * w) 0
        { rng with floats := rng.floats.tail }).1]) _ hnew
    refine ⟨p, ?_, ?_, ?_⟩
    · show (match rng.genRangeFloat w with
        | none => none
        | some (wx, rng1) =>
          addBurst n w (acc ++ [(Bunny.new wx 0 rng1).1]) (Bunny.new wx 0 rng1).2)
        = some p
      rw [hgen]
      exact hp
    · rw [hlen]
      simp only [List.length_append, List.length_singleton]
      omega
    · intro b hb
      rcases hmem b hb with hmem1 | hnew1
      · rcases List.mem_append.mp hmem1 with h1 | h1
        · exact Or.inl h1
        · right
          simp only [List.mem_singleton] at h1
          subst h1
          obtain ⟨hu0, hu1⟩ := headD_unit rng h
          refine ⟨rfl, mul_nonneg hu0 (le_of_lt hw), ?_⟩
          calc rng.floats.headD 0 * w < 1 * w :=
                mul_lt_mul_of_pos_right hu1 hw
            _ = w := one_mul w
      · exact Or.inr hnew1

/-- The delete loop succeeds whenever it is asked to remove no more
bunnies than are present, and removes exactly that many. -/
lemma removeLoop_spec (n : Nat) :
    ∀ (bs : List Bunny) (rng : Rng), n ≤ bs.length →
      ∃ p, removeLoop n bs rng = some p ∧
        p.1.length = bs.length - n := by
  induction n with
  | zero =>
    intro bs rng _
    exact ⟨(bs, rng), rfl, by simp⟩
  | succ n ih =>
    intro bs rng hn
    have hne : bs.length ≠ 0 := by omega
    have hgen : rng.genRangeNat bs.length =
        some (rng.nats.headD 0 % bs.length, { rng with nats := rng.nats.tail }) := by
      unfold Rng.genRangeNat
      rw [if_neg hne]
    have hidx : rng.nats.headD 0 % bs.length < bs.length :=
      Nat.mod_lt _ (Nat.pos_of_ne_zero hne)
    have herase : (bs.eraseIdx (rng.nats.headD 0 % bs.length)).length
        = bs.length - 1 :=
      List.length_eraseIdx_of_lt hidx
    obtain ⟨p, hp, hplen⟩ := ih (bs.eraseIdx (rng.nats.headD 0 % bs.length))
      { rng with nats := rng.nats.tail } (by omega)
    refine ⟨p, ?_, ?_⟩
    · show (match rng.genRangeNat bs.length with
        | none => none
        | some (i, rng1) => removeLoop n (bs.eraseIdx i) rng1) = some p
      rw [hgen]
      exact hp
    · rw [hplen, herase]
      omega

/-! ## Claim theorems -/

/-- C2: for a fixed entity snapshot, the batched render path (one instance
per bunny translated to its position, batch drawn at the origin) and the
naive render path (one draw per bunny at its position) produce the same
list, hence the same multiset, of drawn sprite instances: same count, same
texture, same positions. -/
theorem c2_draw_paths_equal (texture : Nat) (bunnies : List Bunny) :
    batchedDraw texture bunnies = naiveDraw texture bunnies := by
  simp [batchedDraw, naiveDraw]

/-- C7: with delete held, ctrl not held and an empty collection, the delete
phase is a guarded no-op: it succeeds (no panic), leaves the collection
empty and consumes no randomness. -/
theorem c7_delete_empty_guarded (rng : Rng) :
    deletePhase true false [] rng = some ([], rng) := rfl

/-- C8: the Space key press flips batched_drawing and changes nothing else,
and pressing it twice returns the state, including batched_drawing, to its
original value. -/
theorem c8_toggle_involution (s : GameState) :
    keyDownEvent KeyCode.Space s
      = { s with batched_drawing := !s.batched_drawing } ∧
    keyDownEvent KeyCode.Space (keyDownEvent KeyCode.Space s) = s := by
  constructor
  · rfl
  · show ({ s with batched_drawing := !!s.batched_drawing } : GameState) = s
    rw [Bool.not_not]

/-- C9: after initialization the state holds exactly INITIAL_BUNNIES
bunnies, all spawned at (0, 0), with batched_drawing true, all held flags
false and click_timer zero. -/
theorem c9_initial_state (tw th : Nat) (rng : Rng) :
    (GameState.new tw th rng).bunnies.length = INITIAL_BUNNIES ∧
    (∀ b ∈ (GameState.new tw th rng).bunnies, b.position = ⟨0, 0⟩) ∧
    (GameState.new tw th rng).batched_drawing = true ∧
    (GameState.new tw th rng).add_held = false ∧
    (GameState.new tw th rng).delete_held = false ∧
    (GameState.new tw th rng).ctrl_held = false ∧
    (GameState.new tw th rng).click_timer = 0 := by
  refine ⟨?_, ?_, rfl, rfl, rfl, rfl, rfl⟩
  · show (spawnLoop INITIAL_BUNNIES 0 0 [] rng).1.length = INITIAL_BUNNIES
    rw [spawnLoop_length]
    rfl
  · intro b hb
    have := spawnLoop_mem INITIAL_BUNNIES 0 0 [] rng b hb
    rcases this with h | h
    · exact absurd h (List.not_mem_nil b)
    · exact h

/-- C1: for every entity, after the physics integration step of a tick the
position lies in [0, max_x] × [0, max_y], provided the bounds are
nonnegative: the boundary clamp invariant is preserved by the update
loop. -/
theorem c1_bounds_invariant (w : ℚ) (c : Vec2) (s s' : GameState)
    (hx : 0 ≤ s.max_x) (hy : 0 ≤ s.max_y) (h : tick w c s = some s') :
    ∀ b ∈ s'.bunnies,
      0 ≤ b.position.x ∧ b.position.x ≤ s.max_x ∧
      0 ≤ b.position.y ∧ b.position.y ≤ s.max_y := by
  obtain ⟨bs, rng, hb⟩ := tick_bunnies w c s s' h
  rw [hb]
  exact integrateAll_bounds s.max_x s.max_y hx hy bs rng

/-- Witness for C1: a concrete tick with one bunny, bounds 10 × 10, checked
on the integrated bunny. -/
theorem c1_bounds_invariant_witness :
    0 ≤ (⟨⟨1, 1⟩, ⟨1, 3/2⟩⟩ : Bunny).position.x ∧
    (⟨⟨1, 1⟩, ⟨1, 3/2⟩⟩ : Bunny).position.x ≤ (10 : ℚ) ∧
    0 ≤ (⟨⟨1, 1⟩, ⟨1, 3/2⟩⟩ : Bunny).position.y ∧
    (⟨⟨1, 1⟩, ⟨1, 3/2⟩⟩ : Bunny).position.y ≤ (10 : ℚ) :=
  c1_bounds_invariant 5 ⟨0, 0⟩
    (GameState.mk ⟨[], [], []⟩ [⟨⟨0, 0⟩, ⟨1, 1⟩⟩] 10 10 false false false 0 true)
    (GameState.mk ⟨[], [], []⟩ [⟨⟨1, 1⟩, ⟨1, 3/2⟩⟩] 10 10 false false false 0 true)
    (by norm_num) (by norm_num)
    (by norm_num [tick, addPhase, deletePhase, integrateAll, integrate,
      stepVertical, stepHorizontal, stepMove, GRAVITY])
    ⟨⟨1, 1⟩, ⟨1, 3/2⟩⟩ (by simp)

/-- C3: for an entity whose post-move position.y exceeds max_y at the floor
check with velocity.y = v there, the integration step clamps position.y to
max_y and sets velocity.y to -0.8 * v minus the probabilistic extra
impulse, the impulse being 3.0 plus four times a unit draw when the coin
draw is true and zero otherwise. -/
theorem c3_floor_bounce (maxX maxY v : ℚ) (b : Bunny) (rng : Rng)
    (hy : (stepHorizontal maxX (stepMove b)).position.y > maxY)
    (hv : (stepHorizontal maxX (stepMove b)).velocity.y = v) :
    (integrate maxX maxY b rng).1.position.y = maxY ∧
    (integrate maxX maxY b rng).1.velocity.y =
      (-(4/5)) * v -
        (if rng.genBool.1 then 3 + rng.genBool.2.genFloat.1 * 4 else 0) := by
  unfold integrate
  simp only [stepVertical, if_pos hy]
  split_ifs with hc
  · exact ⟨rfl, by rw [hv]; ring⟩
  · exact ⟨rfl, by rw [hv]; ring⟩

/-- Witness for C3: a bunny falling through the floor at maxY = 10 with a
deterministic coin draw of false. -/
theorem c3_floor_bounce_witness :
    (integrate 10 10 ⟨⟨0, 10⟩, ⟨0, 1⟩⟩ ⟨[], [false], []⟩).1.position.y = 10 ∧
    (integrate 10 10 ⟨⟨0, 10⟩, ⟨0, 1⟩⟩ ⟨[], [false], []⟩).1.velocity.y =
      (-(4/5)) * (3/2) -
        (if (Rng.mk [] [false] []).genBool.1
         then 3 + (Rng.mk [] [false] []).genBool.2.genFloat.1 * 4 else 0) :=
  c3_floor_bounce 10 10 (3/2) ⟨⟨0, 10⟩, ⟨0, 1⟩⟩ ⟨[], [false], []⟩
    (by norm_num [stepHorizontal, stepMove, GRAVITY])
    (by norm_num [stepHorizontal, stepMove, GRAVITY])

/-- C4: the add phase of a tick with add and ctrl held, starting from an
empty collection, succeeds and yields exactly INITIAL_BUNNIES bunnies, each
spawned at y = 0 with x in [0, window width), for a positive window width
and a well-formed float stream. -/
theorem c4_ctrl_add_burst (w : ℚ) (c : Vec2) (rng : Rng)
    (hw : 0 < w) (h : rng.unitFloats) :
    ∃ p, addPhase w c true true [] rng = some p ∧
      p.1.length = INITIAL_BUNNIES ∧
      ∀ b ∈ p.1, b.position.y = 0 ∧ 0 ≤ b.position.x ∧ b.position.x < w := by
  obtain ⟨p, hp, hlen, hmem⟩ := addBurst_spec INITIAL_BUNNIES w hw [] rng h
  refine ⟨p, hp, by simpa using hlen, ?_⟩
  intro b hb
  rcases hmem b hb with h1 | h1
  · exact absurd h1 (List.not_mem_nil b)
  · exact h1

/-- Witness for C4: a burst into an empty collection with window width 2
and an exhausted (hence trivially well-formed) float stream. -/
theorem c4_ctrl_add_burst_witness :
    (0 : ℚ) < 2 ∧
    ∃ p, addPhase 2 ⟨0, 0⟩ true true [] ⟨[], [], []⟩ = some p ∧
      p.1.length = INITIAL_BUNNIES ∧
      ∀ b ∈ p.1, b.position.y = 0 ∧ 0 ≤ b.position.x ∧ b.position.x < 2 :=
  ⟨by norm_num,
    c4_ctrl_add_burst 2 ⟨0, 0⟩ ⟨[], [], []⟩ (by norm_num)
      (fun q hq => absurd hq (List.not_mem_nil q))⟩

/-- C5: one tick with delete and ctrl held and add not held succeeds and
removes exactly min(INITIAL_BUNNIES, N) bunnies from a population of N:
the collection empties when N ≤ INITIAL_BUNNIES and otherwise exactly
N - INITIAL_BUNNIES remain; each removal draws an index against the list
still present at that moment. -/
theorem c5_ctrl_delete_tick (w : ℚ) (c : Vec2) (s : GameState)
    (hd : s.delete_held = true) (hc : s.ctrl_held = true)
    (ha : s.add_held = false) :
    ∃ s', tick w c s = some s' ∧
      s'.bunnies.length
        = s.bunnies.length - min INITIAL_BUNNIES s.bunnies.length ∧
      (s.bunnies.length ≤ INITIAL_BUNNIES → s'.bunnies = []) := by
  obtain ⟨p, hp, hplen⟩ := removeLoop_spec
    (min INITIAL_BUNNIES s.bunnies.length) s.bunnies s.rng
    (Nat.min_le_right _ _)
  obtain ⟨pl, pr⟩ := p
  have hcount : (if s.bunnies.length > INITIAL_BUNNIES then INITIAL_BUNNIES
      else s.bunnies.length) = min INITIAL_BUNNIES s.bunnies.length := by
    split_ifs with h1 <;> omega
  have haddp : addPhase w c s.add_held s.ctrl_held s.bunnies s.rng
      = some (s.bunnies, s.rng) := by
    rw [ha]
    rfl
  have hdelp : deletePhase s.delete_held s.ctrl_held s.bunnies s.rng
      = some (pl, pr) := by
    rw [hd, hc]
    show removeLoop (if s.bunnies.length > INITIAL_BUNNIES then INITIAL_BUNNIES
      else s.bunnies.length) s.bunnies s.rng = some (pl, pr)
    rw [hcount]
    exact hp
  have hpllen : pl.length
      = s.bunnies.length - min INITIAL_BUNNIES s.bunnies.length := hplen
  refine ⟨{ s with
      click_timer := if s.click_timer > 0 then s.click_timer - 1
                     else s.click_timer,
      bunnies := (integrateAll s.max_x s.max_y pl pr).1,
      rng := (integrateAll s.max_x s.max_y pl pr).2 }, ?_, ?_, ?_⟩
  · unfold tick
    simp only [haddp, hdelp]
  · show (integrateAll s.max_x s.max_y pl pr).1.length = _
    rw [integrateAll_length, hpllen]
  · intro hle
    show (integrateAll s.max_x s.max_y pl pr).1 = []
    have hzero : (integrateAll s.max_x s.max_y pl pr).1.length = 0 := by
      rw [integrateAll_length, hpllen]
      omega
    exact List.length_eq_zero.mp hzero

/-- Witness for C5: a tick deleting from a population of two bunnies with
delete and ctrl held, which must empty the collection. -/
theorem c5_ctrl_delete_tick_witness :
    ∃ s', tick 5 ⟨0, 0⟩
        (GameState.mk ⟨[], [], [0, 0]⟩
          [⟨⟨1, 1⟩, ⟨0, 0⟩⟩, ⟨⟨2, 2⟩, ⟨0, 0⟩⟩] 10 10 true false true 0 true)
        = some s' ∧
      s'.bunnies.length
        = (GameState.mk ⟨[], [], [0, 0]⟩
            [⟨⟨1, 1⟩, ⟨0, 0⟩⟩, ⟨⟨2, 2⟩, ⟨0, 0⟩⟩] 10 10 true false true 0
            true).bunnies.length
          - min INITIAL_BUNNIES
            (GameState.mk ⟨[], [], [0, 0]⟩
              [⟨⟨1, 1⟩, ⟨0, 0⟩⟩, ⟨⟨2, 2⟩, ⟨0, 0⟩⟩] 10 10 true false true 0
              true).bunnies.length ∧
      ((GameState.mk ⟨[], [], [0, 0]⟩
          [⟨⟨1, 1⟩, ⟨0, 0⟩⟩, ⟨⟨2, 2⟩, ⟨0, 0⟩⟩] 10 10 true false true 0
          true).bunnies.length ≤ INITIAL_BUNNIES → s'.bunnies = []) :=
  c5_ctrl_delete_tick 5 ⟨0, 0⟩
    (GameState.mk ⟨[], [], [0, 0]⟩
      [⟨⟨1, 1⟩, ⟨0, 0⟩⟩, ⟨⟨2, 2⟩, ⟨0, 0⟩⟩] 10 10 true false true 0 true)
    rfl rfl rfl

/-- C6: the spawn rule produces exactly one bunny at the given point whose
velocity is computed as x_vel = draw1 * 5 in [0, 5) and
y_vel = draw2 * 5 - 5/2 in [-5/2, 5/2) from the next two draws of a
well-formed stream, and its only effect is consuming those two draws. -/
theorem c6_spawn_rule (x y : ℚ) (rng : Rng) (h : rng.unitFloats) :
    (Bunny.new x y rng).1.position = ⟨x, y⟩ ∧
    (Bunny.new x y rng).1.velocity.x = rng.floats.headD 0 * 5 ∧
    (Bunny.new x y rng).1.velocity.y = rng.floats.tail.headD 0 * 5 - 5/2 ∧
    0 ≤ (Bunny.new x y rng).1.velocity.x ∧
    (Bunny.new x y rng).1.velocity.x < 5 ∧
    -(5/2) ≤ (Bunny.new x y rng).1.velocity.y ∧
    (Bunny.new x y rng).1.velocity.y < 5/2 ∧
    (Bunny.new x y rng).2 = { rng with floats := rng.floats.tail.tail } := by
  obtain ⟨h10, h11⟩ := headD_unit rng h
  have htail := unitFloats_tail rng h
  have h2 := headD_unit { rng with floats := rng.floats.tail } htail
  have h20 : 0 ≤ rng.floats.tail.headD 0 := h2.1
  have h21 : rng.floats.tail.headD 0 < 1 := h2.2
  refine ⟨rfl, rfl, rfl, ?_, ?_, ?_, ?_, rfl⟩
  · show 0 ≤ rng.floats.headD 0 * 5
    linarith
  · show rng.floats.headD 0 * 5 < 5
    linarith
  · show -(5/2) ≤ rng.floats.tail.headD 0 * 5 - 5/2
    linarith
  · show rng.floats.tail.headD 0 * 5 - 5/2 < 5/2
    linarith

/-- Witness for C6: the spawn rule applied at (3, 7) to the concrete
stream [1/2, 1/4]. -/
theorem c6_spawn_rule_witness :
    Rng.unitFloats ⟨[1/2, 1/4], [], []⟩ ∧
    ((Bunny.new 3 7 ⟨[1/2, 1/4], [], []⟩).1.position = ⟨3, 7⟩ ∧
     (Bunny.new 3 7 ⟨[1/2, 1/4], [], []⟩).1.velocity.x
       = ([1/2, 1/4] : List ℚ).headD 0 * 5 ∧
     (Bunny.new 3 7 ⟨[1/2, 1/4], [], []⟩).1.velocity.y
       = ([1/2, 1/4] : List ℚ).tail.headD 0 * 5 - 5/2 ∧
     0 ≤ (Bunny.new 3 7 ⟨[1/2, 1/4], [], []⟩).1.velocity.x ∧
     (Bunny.new 3 7 ⟨[1/2, 1/4], [], []⟩).1.velocity.x < 5 ∧
     -(5/2) ≤ (Bunny.new 3 7 ⟨[1/2, 1/4], [], []⟩).1.velocity.y ∧
     (Bunny.new 3 7 ⟨[1/2, 1/4], [], []⟩).1.velocity.y < 5/2 ∧
     (Bunny.new 3 7 ⟨[1/2, 1/4], [], []⟩).2
       = { Rng.mk [1/2, 1/4] [] [] with
           floats := ([1/2, 1/4] : List ℚ).tail.tail }) := by
  have hu : Rng.unitFloats ⟨[1/2, 1/4], [], []⟩ := by
    intro q hq
    fin_cases hq <;> norm_num
  exact ⟨hu, c6_spawn_rule 3 7 ⟨[1/2, 1/4], [], []⟩ hu⟩

/-- C10: click_timer equals zero in every reachable state: it starts at
zero, the guarded decrement is never taken, and no transition assigns it a
positive value. -/
theorem c10_click_timer_always_zero (s : GameState) (h : Reachable s) :
    s.click_timer = 0 := by
  induction h with
  | init tw th rng => rfl
  | step w c s s' _ htick ih =>
    rw [tick_click_timer w c s s' htick, ih]
    rfl
  | keyDown k s _ ih => rw [keyDownEvent_click_timer, ih]
  | keyUp k s _ ih => rw [keyUpEvent_click_timer, ih]
  | mouseDown b s _ ih => rw [mouseButtonDownEvent_click_timer, ih]
  | mouseUp b s _ ih => rw [mouseButtonUpEvent_click_timer, ih]

/-- Witness for C10: the freshly initialised state is reachable and the
theorem yields click_timer = 0 there. -/
theorem c10_click_timer_always_zero_witness :
    (GameState.new 26 37 ⟨[], [], []⟩).click_timer = 0 :=
  c10_click_timer_always_zero (GameState.new 26 37 ⟨[], [], []⟩)
    (Reachable.init 26 37 ⟨[], [], []⟩)

end Bunnymark
